import Mathlib

/-!
Verification development for the DraggableList widget
(src pages Dashboard / DraggableList).

The widget state and its event handlers are embedded as pure Lean
functions. React state setters become explicit record updates on a
`ListState`; the string-keyed JS object holding groups becomes an
association list with JS object-update semantics (existing key keeps
its position, new key appended last); JS `Date.now()` becomes an
explicit `now : Nat` argument to the group-creation handler.
-/

/-- The Item record of the widget: an id and a display label. -/
structure Item where
  id : String
  content : String
deriving DecidableEq, Repr

/-- The GroupedItems state: a string-keyed mapping from group id to the
ordered sequence of member item ids, embedded as an association list. -/
abbrev GroupedItems := List (String × List String)

/-- The pending pair held between a drag-end onto an ungrouped target and
dialog resolution. -/
structure ItemToGroup where
  dragged : String
  target : String
deriving DecidableEq, Repr

/-- A drag-end (or drag-start) event: the dragged id and the drop-target
id, when there is one. -/
structure DragEndEvent where
  active : String
  over : Option String
deriving DecidableEq, Repr

/-- The action argument of the group-confirmation dialog handler. -/
inductive GroupAction where
  | group
  | cancel
deriving DecidableEq, Repr

/-- The full component state: the five useState slots of DraggableList
plus the controlled text field of the name dialog. -/
structure ListState where
  items : List Item
  groupedItems : GroupedItems
  activeId : Option String
  showGroupDialog : Bool
  showNameDialog : Bool
  itemToGroup : Option ItemToGroup
  groupName : String
deriving DecidableEq, Repr

/-- JS property read on the groups object: the value at a key, if present. -/
def lookupGroup : GroupedItems → String → Option (List String)
  | [], _ => none
  | (k, v) :: rest, key => if k = key then some v else lookupGroup rest key

/-- JS object spread update on the groups object: replace the value when
the key is present (keeping its position), otherwise append the new
key-value pair at the end. -/
def setKey (g : GroupedItems) (key : String) (v : List String) : GroupedItems :=
  if (lookupGroup g key).isSome then
    g.map fun p => if p.1 = key then (key, v) else p
  else
    g ++ [(key, v)]

/-- JS delete of a key on the groups object. -/
def deleteKey (g : GroupedItems) (key : String) : GroupedItems :=
  g.filter fun p => p.1 ≠ key

/-- The flattened member ids of every group, as in
Object.values(groupedItems).flat(). -/
def groupMembers (g : GroupedItems) : List String :=
  (g.map Prod.snd).flatten

/-- The derived visible list: items whose id is not a member of any group. -/
def visibleItems (items : List Item) (g : GroupedItems) : List Item :=
  items.filter fun item => !((groupMembers g).contains item.id)

/-- JS Array.prototype.findIndex: index of the first match, or -1. -/
def jsFindIndex (p : α → Bool) : List α → Int
  | [] => -1
  | x :: xs => if p x then 0 else
      let r := jsFindIndex p xs
      if r < 0 then -1 else r + 1

/-- Modelled from the spec: the dnd-kit arrayMove helper (library code,
not part of this repository). Standard array-move semantics: remove the
element at the source index and insert it at the destination index,
shifting intervening elements by one. Index handling follows the JS
implementation, which computes the raw insertion position from the
original length before the removal and lets splice clamp both indices;
negative indices count from the end. When the removal finds no element
(possible here only on an empty list, where JS would insert undefined)
the list is returned unchanged; the widget never reaches that corner. -/
def arrayMove (l : List α) (i j : Int) : List α :=
  let n := l.length
  let fromIdx := if i < 0 then (Int.ofNat n + i).toNat else i.toNat
  if h : fromIdx < n then
    let x := l.get ⟨fromIdx, h⟩
    let rest := l.take fromIdx ++ l.drop (fromIdx + 1)
    let pos : Int := if j < 0 then Int.ofNat n + j else j
    let toIdx := if pos < 0 then (Int.ofNat rest.length + pos).toNat
      else min pos.toNat rest.length
    rest.take toIdx ++ x :: rest.drop toIdx
  else l

/-- The seed items of the widget. -/
def initialItems : List Item :=
  [{ id := "1", content := "Item 1" },
   { id := "2", content := "Item 2" },
   { id := "3", content := "Item 3" },
   { id := "4", content := "Item 4" }]

/-- The initial component state. -/
def initialState : ListState :=
  { items := initialItems,
    groupedItems := [],
    activeId := none,
    showGroupDialog := false,
    showNameDialog := false,
    itemToGroup := none,
    groupName := "" }

/-- handleDragStart: records the dragged id. -/
def handleDragStart (s : ListState) (e : DragEndEvent) : ListState :=
  { s with activeId := some e.active }

/-- handleDragEnd: early return when there is no drop target; otherwise,
when the dragged id differs from the target id, either append the
dragged id to the target group and drop the dragged item (target id is a
group key) or record the pending pair and open the confirmation dialog;
when the ids are equal, apply arrayMove at the two found indices.
Every path with a drop target ends by clearing activeId. -/
def handleDragEnd (s : ListState) (e : DragEndEvent) : ListState :=
  match e.over with
  | none => s
  | some overId =>
    let s1 :=
      if e.active ≠ overId then
        if (lookupGroup s.groupedItems overId).isSome then
          { s with
            groupedItems :=
              setKey s.groupedItems overId
                (((lookupGroup s.groupedItems overId).getD []) ++ [e.active]),
            items := s.items.filter fun item => item.id ≠ e.active }
        else
          { s with
            itemToGroup := some { dragged := e.active, target := overId },
            showGroupDialog := true }
      else
        let oldIndex := jsFindIndex (fun item => item.id = e.active) s.items
        let newIndex := jsFindIndex (fun item => item.id = overId) s.items
        { s with items := arrayMove s.items oldIndex newIndex }
    { s1 with activeId := none }

/-- handleGroup: the confirmation dialog handler. Accepting opens the
name dialog; cancelling closes the confirmation dialog and discards the
pending pair. -/
def handleGroup (s : ListState) (action : GroupAction) : ListState :=
  match action with
  | GroupAction.group => { s with showNameDialog := true }
  | GroupAction.cancel => { s with showGroupDialog := false, itemToGroup := none }

/-- handleNameGroup: when a pending pair exists, create the group entry
keyed by a time-derived id, drop both members from the item list and
append the synthetic group item carrying the entered name; in every case
close both dialogs and reset the pending pair and the name field. -/
def handleNameGroup (s : ListState) (now : Nat) : ListState :=
  let s1 :=
    match s.itemToGroup with
    | some itg =>
      let newGroupId := "group-" ++ toString now
      let newGroups := setKey s.groupedItems newGroupId [itg.dragged, itg.target]
      let s2 := { s with groupedItems := newGroups }
      let filtered := s2.items.filter
        fun (item : Item) => !([itg.dragged, itg.target].contains item.id)
      let s3 := { s2 with items := filtered }
      { s3 with items := s3.items ++ [({ id := newGroupId, content := s.groupName } : Item)] }
    | none => s
  { s1 with
    showNameDialog := false,
    showGroupDialog := false,
    itemToGroup := none,
    groupName := "" }

/-- handleUngroup: delete the group key (a no-op lookup yields the empty
member list), remove any item carrying that id from the item list, and
append one regenerated item per former member. -/
def handleUngroup (s : ListState) (id : String) : ListState :=
  let ungroupedItems := (lookupGroup s.groupedItems id).getD []
  let regenerated := ungroupedItems.map
    fun itemId => ({ id := itemId, content := "Item " ++ itemId } : Item)
  { s with
    groupedItems := deleteKey s.groupedItems id,
    items := (s.items.filter fun item => item.id ≠ id) ++ regenerated }

/-- Cancel button of the name dialog: it only closes that dialog. -/
def nameDialogCancel (s : ListState) : ListState :=
  { s with showNameDialog := false }

/-- Controlled input of the name dialog: stores the current text. -/
def setGroupNameInput (s : ListState) (n : String) : ListState :=
  { s with groupName := n }

/-- The UI events the widget can receive. -/
inductive Event where
  | dragStart (e : DragEndEvent)
  | dragEnd (e : DragEndEvent)
  | groupDialog (a : GroupAction)
  | nameGroup (now : Nat)
  | nameDialogCancel
  | setGroupName (n : String)
  | ungroup (id : String)
deriving DecidableEq, Repr

/-- One step of the widget: dispatch an event to its handler. -/
def step (s : ListState) : Event → ListState
  | Event.dragStart e => handleDragStart s e
  | Event.dragEnd e => handleDragEnd s e
  | Event.groupDialog a => handleGroup s a
  | Event.nameGroup now => handleNameGroup s now
  | Event.nameDialogCancel => nameDialogCancel s
  | Event.setGroupName n => setGroupNameInput s n
  | Event.ungroup id => handleUngroup s id

/-- Which events the rendered UI can actually deliver: rows whose id is a
group key render without drag listeners and with the sortable hook
disabled, so a drag can never start on a group row. All other events are
unrestricted. -/
def eventAllowed (s : ListState) : Event → Bool
  | Event.dragStart e => (lookupGroup s.groupedItems e.active).isNone
  | Event.dragEnd e => (lookupGroup s.groupedItems e.active).isNone
  | _ => true

/-- States reachable from the initial state through UI-deliverable events. -/
inductive Reachable : ListState → Prop where
  | init : Reachable initialState
  | next (s : ListState) (e : Event) (hs : Reachable s) (he : eventAllowed s e = true) :
      Reachable (step s e)

/-- Invariant: every key of the group map also exists as an Item in the
item list. -/
def GroupKeysAreItems (s : ListState) : Prop :=
  ∀ k, (lookupGroup s.groupedItems k).isSome = true → ∃ item ∈ s.items, item.id = k

/-- Auxiliary invariant: the ids held in a pending pair are never group
keys (they were recorded from a drag that started on a non-group row and
ended on a non-group target). -/
def PendingPairNotKeys (s : ListState) : Prop :=
  ∀ p, s.itemToGroup = some p →
    lookupGroup s.groupedItems p.dragged = none ∧
      lookupGroup s.groupedItems p.target = none

/-- The combined inductive invariant carried through every event. -/
def WidgetInv (s : ListState) : Prop := GroupKeysAreItems s ∧ PendingPairNotKeys s

/-- Scenario state: the seed list after dragging item 1 onto item 3. -/
def sDrag : ListState := handleDragEnd initialState { active := "1", over := some "3" }

/-- Scenario state: after accepting the group-confirmation dialog. -/
def sConfirm : ListState := handleGroup sDrag GroupAction.group

/-- Scenario state: after typing the group name G1. -/
def sNamed : ListState := setGroupNameInput sConfirm "G1"

/-- Scenario state: after creating the group (at time 0, so the group id
is group-0). -/
def sGrouped : ListState := handleNameGroup sNamed 0

/-- Scenario state: after additionally dragging item 2 onto the group. -/
def sDropped : ListState := handleDragEnd sGrouped { active := "2", over := some "group-0" }

/-- Sanity check: arrayMove agrees with the JS implementation when moving
an element to a later position. -/
theorem arrayMove_check_forward : arrayMove [10, 20, 30, 40] 0 2 = [20, 30, 10, 40] := by decide

/-- Sanity check: arrayMove at index -1 on both sides (the JS findIndex
miss value on a nonempty list) is the identity, as in the JS
implementation, which removes the last element and re-appends it. -/
theorem arrayMove_check_negative : arrayMove [10, 20, 30] (-1) (-1) = [10, 20, 30] := by decide

/-- Sanity check: arrayMove agrees with the JS implementation when moving
an element to an earlier position. -/
theorem arrayMove_check_backward : arrayMove [10, 20, 30] 2 0 = [30, 10, 20] := by decide

/-- Sanity check: the scenario run produces group-0 with members 1, 3. -/
theorem sGrouped_check : sGrouped.groupedItems = [("group-0", ["1", "3"])] := by decide

/-- Sanity check: dropping item 2 onto group-0 appends it to the member
sequence, matching the spec scenario ordering. -/
theorem sDropped_check : sDropped.groupedItems = [("group-0", ["1", "3", "2"])] ∧
    visibleItems sDropped.items sDropped.groupedItems =
      [{ id := "4", content := "Item 4" }, { id := "group-0", content := "G1" }] := by decide

/-! Lemmas about the association-list operations. -/

@[simp]
theorem lookupGroup_nil (key : String) : lookupGroup [] key = none := rfl

@[simp]
theorem lookupGroup_cons (a : String) (b : List String) (rest : GroupedItems) (key : String) :
    lookupGroup ((a, b) :: rest) key = if a = key then some b else lookupGroup rest key := rfl

theorem mem_groupMembers (g : GroupedItems) (a : String) :
    a ∈ groupMembers g ↔ ∃ p ∈ g, a ∈ p.2 := by
  simp only [groupMembers, List.mem_flatten, List.mem_map]
  constructor
  · rintro ⟨l, ⟨p, hp, rfl⟩, hal⟩
    exact ⟨p, hp, hal⟩
  · rintro ⟨p, hp, hap⟩
    exact ⟨p.2, ⟨p, hp, rfl⟩, hap⟩

theorem mem_groupMembers_of_mem (g : GroupedItems) (p : String × List String) (a : String)
    (hp : p ∈ g) (ha : a ∈ p.2) : a ∈ groupMembers g :=
  (mem_groupMembers g a).mpr ⟨p, hp, ha⟩

theorem mem_visibleItems (items : List Item) (g : GroupedItems) (item : Item) :
    item ∈ visibleItems items g ↔ item ∈ items ∧ item.id ∉ groupMembers g := by
  simp [visibleItems, List.mem_filter]

theorem lookupGroup_replace_self (g : GroupedItems) (key : String) (v : List String)
    (h : (lookupGroup g key).isSome = true) :
    lookupGroup (g.map fun p => if p.1 = key then (key, v) else p) key = some v := by
  induction g with
  | nil => simp at h
  | cons p rest ih =>
    obtain ⟨a, b⟩ := p
    by_cases hak : a = key
    · subst hak
      simp
    · simp only [lookupGroup_cons, if_neg hak, Option.isSome] at h
      simp only [List.map_cons, if_neg hak, lookupGroup_cons, if_neg hak]
      exact ih h

theorem lookupGroup_replace_ne (g : GroupedItems) (key k : String) (v : List String)
    (hk : k ≠ key) :
    lookupGroup (g.map fun p => if p.1 = key then (key, v) else p) k = lookupGroup g k := by
  induction g with
  | nil => simp
  | cons p rest ih =>
    obtain ⟨a, b⟩ := p
    by_cases hak : a = key
    · subst hak
      have hka : ¬(a = k) := fun hh => hk hh.symm
      simp [hka, ih]
    · by_cases hab : a = k
      · simp [hak, hab, hk]
      · simp [hak, hab, ih]

theorem lookupGroup_appendNew_self (g : GroupedItems) (key : String) (v : List String)
    (h : lookupGroup g key = none) :
    lookupGroup (g ++ [(key, v)]) key = some v := by
  induction g with
  | nil => simp
  | cons p rest ih =>
    obtain ⟨a, b⟩ := p
    by_cases hak : a = key
    · simp [hak] at h
    · simp only [lookupGroup_cons, if_neg hak] at h
      simp only [List.cons_append, lookupGroup_cons, if_neg hak]
      exact ih h

theorem lookupGroup_appendNew_ne (g : GroupedItems) (key k : String) (v : List String)
    (hk : k ≠ key) :
    lookupGroup (g ++ [(key, v)]) k = lookupGroup g k := by
  induction g with
  | nil =>
    have hka : ¬(key = k) := fun hh => hk hh.symm
    simp [hka]
  | cons p rest ih =>
    obtain ⟨a, b⟩ := p
    simp only [List.cons_append, lookupGroup_cons, ih]

theorem lookupGroup_setKey_self (g : GroupedItems) (key : String) (v : List String) :
    lookupGroup (setKey g key v) key = some v := by
  unfold setKey
  by_cases h : (lookupGroup g key).isSome = true
  · rw [if_pos h]
    exact lookupGroup_replace_self g key v h
  · rw [if_neg h]
    exact lookupGroup_appendNew_self g key v (Option.not_isSome_iff_eq_none.mp h)

theorem lookupGroup_setKey_ne (g : GroupedItems) (key k : String) (v : List String)
    (hk : k ≠ key) :
    lookupGroup (setKey g key v) k = lookupGroup g k := by
  unfold setKey
  by_cases h : (lookupGroup g key).isSome = true
  · rw [if_pos h]
    exact lookupGroup_replace_ne g key k v hk
  · rw [if_neg h]
    exact lookupGroup_appendNew_ne g key k v hk

theorem lookupGroup_deleteKey_self (g : GroupedItems) (key : String) :
    lookupGroup (deleteKey g key) key = none := by
  induction g with
  | nil => simp [deleteKey]
  | cons p rest ih =>
    obtain ⟨a, b⟩ := p
    by_cases hak : a = key
    · simpa [deleteKey, List.filter_cons, hak] using ih
    · simpa [deleteKey, List.filter_cons, hak] using ih

theorem lookupGroup_deleteKey_ne (g : GroupedItems) (key k : String) (hk : k ≠ key) :
    lookupGroup (deleteKey g key) k = lookupGroup g k := by
  induction g with
  | nil => simp [deleteKey]
  | cons p rest ih =>
    obtain ⟨a, b⟩ := p
    by_cases hak : a = key
    · subst hak
      have hka : ¬(a = k) := fun hh => hk hh.symm
      simp only [deleteKey, List.filter_cons, ne_eq, decide_not] at ih ⊢
      simpa [hka] using ih
    · simp only [deleteKey, List.filter_cons, ne_eq, decide_not] at ih ⊢
      by_cases hab : a = k
      · simp [hak, hab, hk]
      · simp [hak, hab, ih]

theorem mem_groupMembers_of_lookup (g : GroupedItems) (k : String) (M : List String)
    (h : lookupGroup g k = some M) (m : String) (hm : m ∈ M) :
    m ∈ groupMembers g := by
  induction g with
  | nil => simp at h
  | cons p rest ih =>
    obtain ⟨a, b⟩ := p
    by_cases hak : a = k
    · simp only [lookupGroup_cons, if_pos hak, Option.some.injEq] at h
      exact (mem_groupMembers _ m).mpr ⟨(a, b), List.mem_cons_self _ _, by rw [h]; exact hm⟩
    · simp only [lookupGroup_cons, if_neg hak] at h
      have := ih h
      rw [mem_groupMembers] at this ⊢
      obtain ⟨p, hp, hmp⟩ := this
      exact ⟨p, List.mem_cons_of_mem _ hp, hmp⟩

theorem groupMembers_setKey_fresh (g : GroupedItems) (key : String) (v : List String)
    (h : lookupGroup g key = none) :
    groupMembers (setKey g key v) = groupMembers g ++ v := by
  unfold setKey
  rw [if_neg (by simp [h])]
  simp [groupMembers, List.flatten_append]

theorem perm_take_cons_drop (l : List α) (t : Nat) (x : α) :
    (l.take t ++ x :: l.drop t).Perm (x :: l) :=
  List.perm_middle.trans (by rw [List.take_append_drop])

theorem take_append_getElem_drop (l : List α) (f : Nat) (h : f < l.length) :
    l.take f ++ l[f] :: l.drop (f + 1) = l := by
  conv_rhs => rw [← List.take_append_drop f l]
  rw [List.drop_eq_getElem_cons h]

/-- The arrayMove result is always a permutation of its input. -/
theorem arrayMove_perm (l : List α) (i j : Int) : (arrayMove l i j).Perm l := by
  simp only [arrayMove]
  set f := if i < 0 then (Int.ofNat l.length + i).toNat else i.toNat with hf
  by_cases h : f < l.length
  · rw [dif_pos h]
    refine (perm_take_cons_drop _ _ _).trans ?_
    refine List.perm_middle.symm.trans ?_
    rw [List.get_eq_getElem, take_append_getElem_drop l f h]
  · rw [dif_neg h]

/-- arrayMove at equal in-range indices is the identity. -/
theorem arrayMove_self (l : List α) (i : Int) (h0 : 0 ≤ i) (hl : i.toNat < l.length) :
    arrayMove l i i = l := by
  simp only [arrayMove]
  have hneg : ¬i < 0 := by omega
  simp only [if_neg hneg]
  rw [dif_pos hl]
  have hrestlen : (l.take i.toNat ++ l.drop (i.toNat + 1)).length = l.length - 1 := by
    simp only [List.length_append, List.length_take, List.length_drop]
    omega
  have hmin : min i.toNat (l.take i.toNat ++ l.drop (i.toNat + 1)).length = i.toNat := by
    rw [hrestlen]
    omega
  rw [hmin]
  have htake : (l.take i.toNat ++ l.drop (i.toNat + 1)).take i.toNat = l.take i.toNat := by
    rw [List.take_append_of_le_length (by simp; omega), List.take_take]
    simp
  have hdrop : (l.take i.toNat ++ l.drop (i.toNat + 1)).drop i.toNat = l.drop (i.toNat + 1) :=
    List.drop_left' (by simp; omega)
  rw [htake, hdrop, List.get_eq_getElem, take_append_getElem_drop l i.toNat hl]

/-- When some element satisfies the predicate, jsFindIndex returns an
in-range non-negative index. -/
theorem jsFindIndex_of_exists (p : α → Bool) (l : List α) (h : ∃ x ∈ l, p x = true) :
    0 ≤ jsFindIndex p l ∧ (jsFindIndex p l).toNat < l.length := by
  induction l with
  | nil => simp at h
  | cons x xs ih =>
    by_cases hx : p x = true
    · simp [jsFindIndex, hx]
    · obtain ⟨y, hy, hpy⟩ := h
      have hyxs : y ∈ xs := by
        rcases List.mem_cons.mp hy with h1 | h1
        · exact absurd (h1 ▸ hpy) hx
        · exact h1
      obtain ⟨h0, hlt⟩ := ih ⟨y, hyxs, hpy⟩
      have hnneg : ¬jsFindIndex p xs < 0 := by omega
      simp only [jsFindIndex, hx, if_false, if_neg hnneg, Bool.false_eq_true]
      constructor
      · omega
      · simp only [List.length_cons]
        omega

theorem map_replace_of_not_key (g : GroupedItems) (key : String) (v : List String)
    (h : ∀ p ∈ g, p.1 ≠ key) :
    (g.map fun p => if p.1 = key then (key, v) else p) = g := by
  induction g with
  | nil => rfl
  | cons p rest ih =>
    simp only [List.map_cons, if_neg (h p (List.mem_cons_self _ _))]
    rw [ih fun q hq => h q (List.mem_cons_of_mem _ hq)]

theorem filterContains_nil_of_not_mem (g : GroupedItems) (a : String)
    (h : a ∉ groupMembers g) :
    (g.filter fun p => p.2.contains a) = [] := by
  rw [List.filter_eq_nil_iff]
  intro p hp hc
  have hap : a ∈ p.2 := by simpa using hc
  exact h (mem_groupMembers_of_mem g p a hp hap)

theorem filterContains_replace (g : GroupedItems) (o a : String) (v : List String) :
    (g.map Prod.fst).Nodup → (lookupGroup g o).isSome = true →
    a ∉ groupMembers g → a ∈ v →
    (((g.map fun p => if p.1 = o then (o, v) else p).filter
        fun p => p.2.contains a).map Prod.fst) = [o] := by
  induction g with
  | nil =>
    intro _ hg _ _
    simp at hg
  | cons p rest ih =>
    intro hnodup hgrp hnm hav
    obtain ⟨k, w⟩ := p
    have hnm_rest : a ∉ groupMembers rest := by
      intro hmem
      apply hnm
      rw [mem_groupMembers] at hmem ⊢
      obtain ⟨q, hq, hqa⟩ := hmem
      exact ⟨q, List.mem_cons_of_mem _ hq, hqa⟩
    by_cases hko : k = o
    · subst hko
      have hcv : v.contains a = true := by simpa using hav
      have hrestkeys : ∀ q ∈ rest, q.1 ≠ k := by
        simp only [List.map_cons, List.nodup_cons] at hnodup
        intro q hq heq
        exact hnodup.1 (heq ▸ List.mem_map_of_mem Prod.fst hq)
      simp only [List.map_cons, if_pos rfl, List.filter_cons, hcv, if_true]
      rw [map_replace_of_not_key rest k v hrestkeys,
        filterContains_nil_of_not_mem rest a hnm_rest]
      rfl
    · have haw : a ∉ w := by
        intro haw
        exact hnm (mem_groupMembers_of_mem _ (k, w) a (List.mem_cons_self _ _) haw)
      have hwa : w.contains a = false := by simpa using haw
      have hgrp_rest : (lookupGroup rest o).isSome = true := by
        simpa [lookupGroup_cons, hko] using hgrp
      have hnodup_rest : (rest.map Prod.fst).Nodup := by
        simp only [List.map_cons, List.nodup_cons] at hnodup
        exact hnodup.2
      simp only [List.map_cons, if_neg hko, List.filter_cons, hwa]
      simpa using ih hnodup_rest hgrp_rest hnm_rest hav

theorem deleteKey_of_lookup_none (g : GroupedItems) (key : String)
    (h : lookupGroup g key = none) : deleteKey g key = g := by
  induction g with
  | nil => rfl
  | cons p rest ih =>
    obtain ⟨a, b⟩ := p
    by_cases hak : a = key
    · simp [hak] at h
    · simp only [lookupGroup_cons, if_neg hak] at h
      simp only [deleteKey, List.filter_cons, ne_eq, hak, not_false_eq_true, decide_True,
        if_true]
      simpa [deleteKey] using ih h

/-! Claim theorems. -/

/-- C1: evaluation of the code at the failing input. In the seed state a
drag-end whose dragged id 1 differs from the non-group drop-target id 3
does not array-move the item list: the list is returned unchanged and
the group-confirmation dialog opens with the pending pair instead, so
the claimed standard array-move result (order 2, 3, 1, 4) is not
produced. The arrayMove call of the handler sits in the branch where
the dragged id equals the target id, where its two indices coincide. -/
theorem dragEnd_different_nongroup_does_not_reorder :
    (handleDragEnd initialState { active := "1", over := some "3" }).items
        = initialState.items ∧
    (handleDragEnd initialState { active := "1", over := some "3" }).showGroupDialog = true ∧
    (handleDragEnd initialState { active := "1", over := some "3" }).itemToGroup
        = some { dragged := "1", target := "3" } ∧
    (handleDragEnd initialState { active := "1", over := some "3" }).items.map Item.id
        ≠ ["2", "3", "1", "4"] :=
  ⟨by decide, by decide, by decide, by decide⟩

/-- C4 counterexample: a drag-end without a drop target returns before
the activeId reset, so the recorded dragged id survives the drag-end,
contradicting the claim that activeId is cleared regardless of
outcome. -/
theorem dragEnd_without_target_keeps_activeId :
    (handleDragEnd (handleDragStart initialState { active := "1", over := none })
      { active := "1", over := none }).activeId = some "1" := by decide

/-- C4 amended: every drag-end that has a drop target ends with activeId
cleared; a drag-end without a drop target leaves the state untouched. -/
theorem dragEnd_with_target_clears_activeId (s : ListState) (e : DragEndEvent) (o : String)
    (hover : e.over = some o) :
    (handleDragEnd s e).activeId = none := by
  simp [handleDragEnd, hover]

/-- Witness for the amended C4 theorem at a concrete input. -/
theorem dragEnd_with_target_clears_activeId_witness :
    (handleDragEnd initialState { active := "1", over := some "3" }).activeId = none :=
  dragEnd_with_target_clears_activeId initialState { active := "1", over := some "3" } "3" rfl

/-- C5 counterexample: cancelling the group-name dialog does not discard
the pending pair; the stored pair survives that cancel. -/
theorem nameDialog_cancel_keeps_pending_pair :
    (nameDialogCancel (handleGroup
        (handleDragEnd initialState { active := "1", over := some "2" })
        GroupAction.group)).itemToGroup = some { dragged := "1", target := "2" } := by decide

/-- C5 amended: cancelling the group-confirmation dialog discards the
pending pair and mutates neither the item list nor the group map;
cancelling the group-name dialog also mutates neither, but leaves the
pending pair in place. -/
theorem dialog_cancel_behaviour (s : ListState) :
    (handleGroup s GroupAction.cancel).itemToGroup = none ∧
    (handleGroup s GroupAction.cancel).items = s.items ∧
    (handleGroup s GroupAction.cancel).groupedItems = s.groupedItems ∧
    (nameDialogCancel s).items = s.items ∧
    (nameDialogCancel s).groupedItems = s.groupedItems ∧
    (nameDialogCancel s).itemToGroup = s.itemToGroup := by
  simp [handleGroup, nameDialogCancel]

/-- C10: ungrouping an id that is not a group key leaves the group map
unchanged, still deletes any item carrying that id from the item list,
and re-inserts nothing, so a plain visible item is deleted outright. -/
theorem ungroup_nonkey_deletes_item (s : ListState) (id : String)
    (h : lookupGroup s.groupedItems id = none) :
    (handleUngroup s id).groupedItems = s.groupedItems ∧
    (handleUngroup s id).items = s.items.filter fun item => item.id ≠ id := by
  constructor
  · simpa [handleUngroup] using deleteKey_of_lookup_none s.groupedItems id h
  · simp [handleUngroup, h]

/-- Witness for the C10 theorem: ungrouping the plain visible item 2 in
the seed state keeps the empty group map and deletes item 2. -/
theorem ungroup_nonkey_deletes_item_witness :
    (handleUngroup initialState "2").groupedItems = initialState.groupedItems ∧
    (handleUngroup initialState "2").items
      = initialState.items.filter fun item => item.id ≠ "2" :=
  ungroup_nonkey_deletes_item initialState "2" rfl

/-- C9: drag-end is total and defensive: with no drop target the entire
component state is unchanged, and dropping an id onto itself leaves the
item list positionally unchanged, the arrayMove at equal indices being
the identity. -/
theorem dragEnd_total_defensive (s : ListState) (e : DragEndEvent) :
    (e.over = none → handleDragEnd s e = s) ∧
    (∀ a, e.over = some a → e.active = a → a ∈ s.items.map Item.id →
      (handleDragEnd s e).items = s.items) := by
  constructor
  · intro h
    simp [handleDragEnd, h]
  · intro a hover hact hmem
    simp only [handleDragEnd, hover, hact]
    rw [if_neg (show ¬(a ≠ a) by simp)]
    have hex : ∃ x ∈ s.items, (fun item => decide (item.id = a)) x = true := by
      simp only [List.mem_map] at hmem
      obtain ⟨it, hit, hid⟩ := hmem
      exact ⟨it, hit, by simp [hid]⟩
    obtain ⟨h0, hlt⟩ := jsFindIndex_of_exists _ s.items hex
    simpa using arrayMove_self s.items _ h0 hlt

/-- Witness for the C9 theorem: a drag-end with no target in the seed
state is a no-op, and a drag-end of item 2 onto itself keeps the item
list. -/
theorem dragEnd_total_defensive_witness :
    handleDragEnd initialState { active := "1", over := none } = initialState ∧
    (handleDragEnd initialState { active := "2", over := some "2" }).items
      = initialState.items :=
  ⟨(dragEnd_total_defensive initialState { active := "1", over := none }).1 rfl,
    (dragEnd_total_defensive initialState { active := "2", over := some "2" }).2
      "2" rfl rfl (by decide)⟩

/-- C7: a drag-end onto a different non-group id mutates neither the
item list nor the group map; it only records the pending pair and opens
the confirmation dialog, and declining the dialog afterwards leaves the
item list and the group map equal to their values from before the
drag-end. -/
theorem dragEnd_onto_ungrouped_defers (s : ListState) (e : DragEndEvent) (o : String)
    (hover : e.over = some o) (hne : e.active ≠ o)
    (hnogrp : lookupGroup s.groupedItems o = none) :
    (handleDragEnd s e).items = s.items ∧
    (handleDragEnd s e).groupedItems = s.groupedItems ∧
    (handleDragEnd s e).itemToGroup = some { dragged := e.active, target := o } ∧
    (handleDragEnd s e).showGroupDialog = true ∧
    (handleGroup (handleDragEnd s e) GroupAction.cancel).items = s.items ∧
    (handleGroup (handleDragEnd s e) GroupAction.cancel).groupedItems = s.groupedItems := by
  simp [handleDragEnd, handleGroup, hover, hne, hnogrp]

/-- Witness for the C7 theorem: dragging item 1 onto item 3 in the seed
state defers, and cancelling restores nothing because nothing changed. -/
theorem dragEnd_onto_ungrouped_defers_witness :
    (handleDragEnd initialState { active := "1", over := some "3" }).items
        = initialState.items ∧
    (handleDragEnd initialState { active := "1", over := some "3" }).groupedItems
        = initialState.groupedItems ∧
    (handleDragEnd initialState { active := "1", over := some "3" }).itemToGroup
        = some { dragged := "1", target := "3" } ∧
    (handleDragEnd initialState { active := "1", over := some "3" }).showGroupDialog = true ∧
    (handleGroup (handleDragEnd initialState { active := "1", over := some "3" })
        GroupAction.cancel).items = initialState.items ∧
    (handleGroup (handleDragEnd initialState { active := "1", over := some "3" })
        GroupAction.cancel).groupedItems = initialState.groupedItems :=
  dragEnd_onto_ungrouped_defers initialState { active := "1", over := some "3" } "3"
    rfl (by decide) rfl

/-- C6: a drag-end whose target id is an existing group key and whose
dragged id differs appends the dragged id at the end of that group,
removes it from the visible item list, opens no dialog, and leaves the
dragged id a member of exactly one group (given that the dragged row was
visible, hence not yet a member anywhere, and the group map has no
duplicate keys, as a JS object cannot). -/
theorem dragEnd_into_group_appends (s : ListState) (e : DragEndEvent) (o : String)
    (M : List String)
    (hover : e.over = some o) (hne : e.active ≠ o)
    (hgrp : lookupGroup s.groupedItems o = some M)
    (hnodup : (s.groupedItems.map Prod.fst).Nodup)
    (hvis : e.active ∉ groupMembers s.groupedItems) :
    lookupGroup (handleDragEnd s e).groupedItems o = some (M ++ [e.active]) ∧
    e.active ∉ (visibleItems (handleDragEnd s e).items
      (handleDragEnd s e).groupedItems).map Item.id ∧
    (handleDragEnd s e).showGroupDialog = s.showGroupDialog ∧
    (handleDragEnd s e).showNameDialog = s.showNameDialog ∧
    (((handleDragEnd s e).groupedItems.filter
      fun p => p.2.contains e.active).map Prod.fst) = [o] := by
  have hsome : (lookupGroup s.groupedItems o).isSome = true := by simp [hgrp]
  simp only [handleDragEnd, hover]
  rw [if_pos hne, if_pos hsome, hgrp]
  refine ⟨?_, ?_, rfl, rfl, ?_⟩
  · simpa using lookupGroup_setKey_self s.groupedItems o (M ++ [e.active])
  · intro hmm
    simp only [List.mem_map] at hmm
    obtain ⟨it, hit, hid⟩ := hmm
    rw [mem_visibleItems] at hit
    have hfil := hit.1
    rw [List.mem_filter] at hfil
    have h2 := hfil.2
    simp only [decide_eq_true_eq] at h2
    exact h2 hid
  · show (((setKey s.groupedItems o ((some M).getD [] ++ [e.active])).filter
      fun p => p.2.contains e.active).map Prod.fst) = [o]
    unfold setKey
    rw [if_pos hsome]
    exact filterContains_replace s.groupedItems o e.active ((some M).getD [] ++ [e.active])
      hnodup hsome hvis (by simp)

/-- Witness for the C6 theorem: in the scenario state holding group
group-0 with members 1 and 3, dragging item 2 onto group-0 appends 2. -/
theorem dragEnd_into_group_appends_witness :
    lookupGroup (handleDragEnd sGrouped { active := "2", over := some "group-0" }).groupedItems
        "group-0" = some (["1", "3"] ++ ["2"]) ∧
    ("2" : String) ∉ (visibleItems
        (handleDragEnd sGrouped { active := "2", over := some "group-0" }).items
        (handleDragEnd sGrouped { active := "2", over := some "group-0" }).groupedItems).map
        Item.id ∧
    (handleDragEnd sGrouped { active := "2", over := some "group-0" }).showGroupDialog
        = sGrouped.showGroupDialog ∧
    (handleDragEnd sGrouped { active := "2", over := some "group-0" }).showNameDialog
        = sGrouped.showNameDialog ∧
    (((handleDragEnd sGrouped { active := "2", over := some "group-0" }).groupedItems.filter
        fun p => p.2.contains "2").map Prod.fst) = ["group-0"] :=
  dragEnd_into_group_appends sGrouped { active := "2", over := some "group-0" } "group-0"
    ["1", "3"] rfl (by decide) (by decide) (by decide) (by decide)

/-- C3 counterexample: the regenerated label does NOT always differ from
the member's original content. Grouping seed items 1 and 3 and then
ungrouping re-inserts the item for member 1 with content Item 1, which
is identical to its original content in the seed state. -/
theorem ungroup_label_can_equal_original :
    ({ id := "1", content := "Item 1" } : Item) ∈ initialState.items ∧
    ({ id := "1", content := "Item 1" } : Item)
      ∈ (handleUngroup sGrouped "group-0").items :=
  ⟨by decide, by decide⟩

/-- C3 amended: ungroup removes the group key and re-inserts every
former member as a visible item whose content is regenerated as the
string Item followed by the member id, irrespective of the original
content (so the label differs from the original exactly when that
original content was not already of this shape; for the seed items the
two coincide). -/
theorem ungroup_restores_members_lossy (s : ListState) (G : String) (M : List String)
    (hG : lookupGroup s.groupedItems G = some M)
    (hM : ∀ m ∈ M, m ∉ groupMembers (deleteKey s.groupedItems G)) :
    lookupGroup (handleUngroup s G).groupedItems G = none ∧
    ∀ m ∈ M, ({ id := m, content := "Item " ++ m } : Item) ∈
      visibleItems (handleUngroup s G).items (handleUngroup s G).groupedItems := by
  constructor
  · simpa [handleUngroup] using lookupGroup_deleteKey_self s.groupedItems G
  · intro m hm
    rw [mem_visibleItems]
    constructor
    · simp only [handleUngroup, hG, Option.getD_some]
      apply List.mem_append_right
      exact List.mem_map_of_mem _ hm
    · simpa [handleUngroup] using hM m hm

/-- Witness for the amended C3 theorem: ungrouping group-0 (members 1
and 3) in the scenario state removes the key and re-inserts both
members with regenerated labels. -/
theorem ungroup_restores_members_lossy_witness :
    lookupGroup (handleUngroup sGrouped "group-0").groupedItems "group-0" = none ∧
    ∀ m ∈ ["1", "3"], ({ id := m, content := "Item " ++ m } : Item) ∈
      visibleItems (handleUngroup sGrouped "group-0").items
        (handleUngroup sGrouped "group-0").groupedItems :=
  ungroup_restores_members_lossy sGrouped "group-0" ["1", "3"] (by decide) (by decide)

/-- C2: creating the named group from pending pair D, T with entered
name N and a fresh time-derived group id installs the member sequence
D, T under the new key, makes D and T absent from the visible list, and
appends the new visible item carrying the group id and the name after
the remaining items; in the concrete seed scenario, dragging item 1
onto item 3, confirming and naming the group G1 yields visible order
2, 4, group-0 with group-0 holding members 1, 3. -/
theorem nameGroup_creates_group (s : ListState) (D T N : String) (now : Nat)
    (hpair : s.itemToGroup = some { dragged := D, target := T })
    (hname : s.groupName = N)
    (hfresh : lookupGroup s.groupedItems ("group-" ++ toString now) = none)
    (hD : "group-" ++ toString now ≠ D) (hT : "group-" ++ toString now ≠ T)
    (hmem : "group-" ++ toString now ∉ groupMembers s.groupedItems) :
    lookupGroup (handleNameGroup s now).groupedItems ("group-" ++ toString now)
        = some [D, T] ∧
    D ∉ (visibleItems (handleNameGroup s now).items
        (handleNameGroup s now).groupedItems).map Item.id ∧
    T ∉ (visibleItems (handleNameGroup s now).items
        (handleNameGroup s now).groupedItems).map Item.id ∧
    visibleItems (handleNameGroup s now).items (handleNameGroup s now).groupedItems
        = visibleItems (s.items.filter fun item => !([D, T].contains item.id))
            (handleNameGroup s now).groupedItems
          ++ [{ id := "group-" ++ toString now, content := N }] ∧
    visibleItems sGrouped.items sGrouped.groupedItems
        = [{ id := "2", content := "Item 2" }, { id := "4", content := "Item 4" },
           { id := "group-0", content := "G1" }] ∧
    lookupGroup sGrouped.groupedItems "group-0" = some ["1", "3"] := by
  subst hname
  have hmembers : groupMembers (setKey s.groupedItems ("group-" ++ toString now) [D, T])
      = groupMembers s.groupedItems ++ [D, T] :=
    groupMembers_setKey_fresh s.groupedItems ("group-" ++ toString now) [D, T] hfresh
  simp only [handleNameGroup, hpair]
  refine ⟨?_, ?_, ?_, ?_, by decide, by decide⟩
  · exact lookupGroup_setKey_self s.groupedItems ("group-" ++ toString now) [D, T]
  · intro hmm
    simp only [List.mem_map] at hmm
    obtain ⟨it, hit, hid⟩ := hmm
    rw [mem_visibleItems] at hit
    apply hit.2
    rw [hid, hmembers]
    exact List.mem_append_right _ (by simp)
  · intro hmm
    simp only [List.mem_map] at hmm
    obtain ⟨it, hit, hid⟩ := hmm
    rw [mem_visibleItems] at hit
    apply hit.2
    rw [hid, hmembers]
    exact List.mem_append_right _ (by simp)
  · simp only [visibleItems, List.filter_append]
    have hkeep : !((groupMembers (setKey s.groupedItems ("group-" ++ toString now) [D, T])).contains
        ("group-" ++ toString now)) = true := by
      rw [hmembers]
      simp [hmem, hD, hT]
    simp [hkeep]
    rw [hmembers]
    simp [hmem, hD, hT]

/-- Witness for the C2 theorem: instantiated on the scenario state just
before group creation, with pending pair 1, 3 and entered name G1. -/
theorem nameGroup_creates_group_witness :
    lookupGroup (handleNameGroup sNamed 0).groupedItems ("group-" ++ toString 0)
        = some ["1", "3"] ∧
    ("1" : String) ∉ (visibleItems (handleNameGroup sNamed 0).items
        (handleNameGroup sNamed 0).groupedItems).map Item.id ∧
    ("3" : String) ∉ (visibleItems (handleNameGroup sNamed 0).items
        (handleNameGroup sNamed 0).groupedItems).map Item.id ∧
    visibleItems (handleNameGroup sNamed 0).items (handleNameGroup sNamed 0).groupedItems
        = visibleItems (sNamed.items.filter fun item => !(["1", "3"].contains item.id))
            (handleNameGroup sNamed 0).groupedItems
          ++ [{ id := "group-" ++ toString 0, content := "G1" }] ∧
    visibleItems sGrouped.items sGrouped.groupedItems
        = [{ id := "2", content := "Item 2" }, { id := "4", content := "Item 4" },
           { id := "group-0", content := "G1" }] ∧
    lookupGroup sGrouped.groupedItems "group-0" = some ["1", "3"] :=
  nameGroup_creates_group sNamed "1" "3" "G1" 0 (by decide) (by decide) (by decide)
    (by decide) (by decide) (by decide)

theorem widgetInv_initial : WidgetInv initialState := by
  constructor
  · intro k hk
    simp [initialState] at hk
  · intro p hp
    simp [initialState] at hp

theorem widgetInv_step (s : ListState) (e : Event) (hinv : WidgetInv s)
    (he : eventAllowed s e = true) : WidgetInv (step s e) := by
  obtain ⟨hkeys, hpend⟩ := hinv
  cases e with
  | dragStart ev => exact ⟨hkeys, hpend⟩
  | groupDialog a =>
    cases a with
    | group => exact ⟨hkeys, hpend⟩
    | cancel =>
      refine ⟨hkeys, ?_⟩
      intro p hp
      simp [step, handleGroup] at hp
  | nameDialogCancel => exact ⟨hkeys, hpend⟩
  | setGroupName n => exact ⟨hkeys, hpend⟩
  | ungroup id =>
    refine ⟨?_, ?_⟩
    · intro k hk
      simp only [step, handleUngroup] at hk ⊢
      by_cases hkid : k = id
      · rw [hkid, lookupGroup_deleteKey_self] at hk
        simp at hk
      · rw [lookupGroup_deleteKey_ne _ _ _ hkid] at hk
        obtain ⟨item, hit, hid⟩ := hkeys k hk
        refine ⟨item, ?_, hid⟩
        apply List.mem_append_left
        rw [List.mem_filter]
        exact ⟨hit, by simp [hid, hkid]⟩
    · intro p hp
      simp only [step, handleUngroup] at hp ⊢
      obtain ⟨h1, h2⟩ := hpend p hp
      constructor
      · by_cases hd : p.dragged = id
        · rw [hd, lookupGroup_deleteKey_self]
        · rw [lookupGroup_deleteKey_ne _ _ _ hd]
          exact h1
      · by_cases ht : p.target = id
        · rw [ht, lookupGroup_deleteKey_self]
        · rw [lookupGroup_deleteKey_ne _ _ _ ht]
          exact h2
  | nameGroup now =>
    cases hitg : s.itemToGroup with
    | none =>
      refine ⟨?_, ?_⟩
      · intro k hk
        simp only [step, handleNameGroup, hitg] at hk ⊢
        exact hkeys k hk
      · intro p hp
        simp only [step, handleNameGroup, hitg] at hp
        exact Option.noConfusion hp
    | some itg =>
      have hpair := hpend itg hitg
      refine ⟨?_, ?_⟩
      · intro k hk
        simp only [step, handleNameGroup, hitg] at hk ⊢
        by_cases hkG : k = "group-" ++ toString now
        · refine ⟨{ id := "group-" ++ toString now, content := s.groupName },
            List.mem_append_right _ (by simp), by simp [hkG]⟩
        · rw [lookupGroup_setKey_ne _ _ _ _ hkG] at hk
          obtain ⟨item, hit, hid⟩ := hkeys k hk
          refine ⟨item, ?_, hid⟩
          apply List.mem_append_left
          rw [List.mem_filter]
          refine ⟨hit, ?_⟩
          have hkd : k ≠ itg.dragged := by
            intro hh
            rw [hh, hpair.1] at hk
            simp at hk
          have hkt : k ≠ itg.target := by
            intro hh
            rw [hh, hpair.2] at hk
            simp at hk
          simp [hid, hkd, hkt]
      · intro p hp
        simp only [step, handleNameGroup, hitg] at hp
        exact Option.noConfusion hp
  | dragEnd ev =>
    have hact : lookupGroup s.groupedItems ev.active = none := by
      simp only [eventAllowed] at he
      simpa [Option.isNone_iff_eq_none] using he
    cases hov : ev.over with
    | none =>
      constructor
      · intro k hk
        simp only [step, handleDragEnd, hov] at hk ⊢
        exact hkeys k hk
      · intro p hp
        simp only [step, handleDragEnd, hov] at hp ⊢
        exact hpend p hp
    | some o =>
      by_cases hao : ev.active ≠ o
      · by_cases hgo : (lookupGroup s.groupedItems o).isSome = true
        · constructor
          · intro k hk
            simp only [step, handleDragEnd, hov, if_pos hao, if_pos hgo] at hk ⊢
            by_cases hko : k = o
            · obtain ⟨item, hit, hid⟩ := hkeys k (by rw [hko]; exact hgo)
              refine ⟨item, ?_, hid⟩
              rw [List.mem_filter]
              refine ⟨hit, ?_⟩
              have hka : k ≠ ev.active := by
                intro hh
                have hcon := hgo
                rw [← hko, hh, hact] at hcon
                simp at hcon
              simp [hid, hka]
            · rw [lookupGroup_setKey_ne _ _ _ _ hko] at hk
              obtain ⟨item, hit, hid⟩ := hkeys k hk
              refine ⟨item, ?_, hid⟩
              rw [List.mem_filter]
              refine ⟨hit, ?_⟩
              have hka : k ≠ ev.active := by
                intro hh
                rw [hh, hact] at hk
                simp at hk
              simp [hid, hka]
          · intro p hp
            simp only [step, handleDragEnd, hov, if_pos hao, if_pos hgo] at hp ⊢
            obtain ⟨h1, h2⟩ := hpend p hp
            have hd : p.dragged ≠ o := by
              intro hh
              rw [← hh, h1] at hgo
              simp at hgo
            have ht : p.target ≠ o := by
              intro hh
              rw [← hh, h2] at hgo
              simp at hgo
            rw [lookupGroup_setKey_ne _ _ _ _ hd, lookupGroup_setKey_ne _ _ _ _ ht]
            exact ⟨h1, h2⟩
        · constructor
          · intro k hk
            simp only [step, handleDragEnd, hov, if_pos hao, if_neg hgo] at hk ⊢
            exact hkeys k hk
          · intro p hp
            simp only [step, handleDragEnd, hov, if_pos hao, if_neg hgo] at hp ⊢
            obtain rfl : ({ dragged := ev.active, target := o } : ItemToGroup) = p := by
              simpa using hp
            exact ⟨hact, Option.not_isSome_iff_eq_none.mp hgo⟩
      · constructor
        · intro k hk
          simp only [step, handleDragEnd, hov, if_neg hao] at hk ⊢
          obtain ⟨item, hit, hid⟩ := hkeys k hk
          exact ⟨item, ((arrayMove_perm _ _ _).mem_iff).mpr hit, hid⟩
        · intro p hp
          simp only [step, handleDragEnd, hov, if_neg hao] at hp ⊢
          exact hpend p hp

theorem reachable_widgetInv (s : ListState) (h : Reachable s) : WidgetInv s := by
  induction h with
  | init => exact widgetInv_initial
  | next s e hs he ih => exact widgetInv_step s e ih he

/-- C8: in every state reachable from the initial state through
UI-deliverable events, every id present as a key of the group map also
exists as an Item in the item list. -/
theorem reachable_group_keys_are_items (s : ListState) (hs : Reachable s) (k : String)
    (hk : (lookupGroup s.groupedItems k).isSome = true) :
    ∃ item ∈ s.items, item.id = k :=
  (reachable_widgetInv s hs).1 k hk

/-- Witness for the C8 theorem: the scenario run that creates group-0 is
reachable, and the key group-0 indeed has a backing item. -/
theorem reachable_group_keys_are_items_witness :
    ∃ item ∈ (step (step (step (step initialState
        (Event.dragEnd { active := "1", over := some "3" }))
        (Event.groupDialog GroupAction.group))
        (Event.setGroupName "G1"))
        (Event.nameGroup 0)).items, item.id = "group-0" :=
  reachable_group_keys_are_items _
    (Reachable.next _ _
      (Reachable.next _ _
        (Reachable.next _ _
          (Reachable.next _ _ Reachable.init (by decide))
          (by decide))
        (by decide))
      (by decide))
    "group-0" (by decide)
